import Mathlib

/-!
Shallow embedding of the Whisper v5 node core (`whisper/whisperv5/whisper.go`
of samuil/go-ethereum): envelope admission (`add`), the envelope/expiration
pool with its periodic sweep (`expire`), decrypted-message storage
(`addDecryptedMessage`), watcher dispatch (`postEvent`) and the key store
(identities and named symmetric keys).

Machine integers: every timestamp field (`Expiry`, `TTL`, `now`) is a Go
`uint32`; arithmetic on them wraps modulo 2^32, which we make explicit with
`sub32` / `add32` over `Nat`.  Byte slices are modelled by their length where
only the length is inspected (`Data`, `Version`, `AESNonce`, `Salt`) and by
`List Nat` where the contents matter (symmetric keys).  Go maps become
functions into `Option`, except the expiration index, which must be iterated
by the sweeper and is therefore an association list.  Fallible Go functions
returning `error` become `Except String` or an `Option String` error
component; `panic` becomes the error branch of an `Except`.
-/

namespace Whisperv5

/-- 2^32, the modulus of Go `uint32` arithmetic. -/
def pow32 : Nat := 4294967296

/-- Go `uint32` subtraction `a - b`, wrapping modulo 2^32 (correct for `a < 2^32`). -/
def sub32 (a b : Nat) : Nat := (a + (pow32 - b % pow32)) % pow32

/-- Go `uint32` addition `a + b`, wrapping modulo 2^32. -/
def add32 (a b : Nat) : Nat := (a + b) % pow32

/-- Modelled from the spec: the constants of the package (defined in the
repository outside `whisper.go`, hence not in the sources given): the
clock-skew allowance `SynchAllowance`, the size bounds `MaxMessageLength`,
`AESNonceMaxLength` and `saltLength`, the admission threshold `MinimumPoW`
and the supported envelope version ceiling `EnvelopeVersion`. -/
structure Params where
  SynchAllowance : Nat
  MaxMessageLength : Nat
  AESNonceMaxLength : Nat
  saltLength : Nat
  MinimumPoW : Rat
  EnvelopeVersion : Nat

/-- Modelled from the spec: the `Envelope` collaborator type (declared in the
repository outside `whisper.go`).  It exposes exactly what `whisper.go`
consumes: the raw `uint32` fields `Expiry` and `TTL`, the lengths of the
`Data`, `Version`, `AESNonce` and `Salt` byte slices, the declared version
`VerVal` (the value of `Ver()`), the stable content hash `hashVal` (the value
of `Hash()`), the currently stored proof-of-work score `pow` (the value of
`PoW()`), and the PoW-recomputation function `powAt`, giving the score the
envelope would be assigned for a given adjusted effective TTL. -/
structure Envelope where
  Expiry : Nat
  TTL : Nat
  DataLen : Nat
  VersionLen : Nat
  AESNonceLen : Nat
  SaltLen : Nat
  VerVal : Nat
  hashVal : Nat
  pow : Rat
  powAt : Nat → Rat

/-- Modelled from the spec: `Envelope.calculatePoW` recomputes and stores the
envelope's PoW score for the adjusted effective TTL `diff`; no other field
changes. -/
def Envelope.calculatePoW (e : Envelope) (diff : Nat) : Envelope :=
  { e with pow := e.powAt diff }

/-- The envelope's stable content hash (`Envelope.Hash()`). -/
def Envelope.Hash (e : Envelope) : Nat := e.hashVal

/-- The envelope's current PoW score (`Envelope.PoW()`). -/
def Envelope.PoW (e : Envelope) : Rat := e.pow

/-- The envelope's declared version (`Envelope.Ver()`). -/
def Envelope.Ver (e : Envelope) : Nat := e.VerVal

/-- A decrypted message: all `whisper.go` uses of `ReceivedMessage` touch only
its back-reference `EnvelopeHash` to the originating envelope. -/
structure ReceivedMessage where
  EnvelopeHash : Nat

/-- The pool state of a `Whisper` node: the `envelopes` and `messages` maps,
the `expirations` index (timestamp to bucket of hashes; a present key with an
empty bucket models a non-nil empty set, an absent key models a nil entry),
and `dispatches`, the log of content hashes handed asynchronously to
`filters.NotifyWatchers` by `postEvent`. -/
structure WState where
  envelopes : Nat → Option Envelope
  messages : Nat → Option ReceivedMessage
  expirations : List (Nat × List Nat)
  dispatches : List Nat

/-- The pool state made by `NewWhisper`: all maps empty, nothing dispatched. -/
def initialWhisper : WState :=
  { envelopes := fun _ => none
    messages := fun _ => none
    expirations := []
    dispatches := [] }

/-- Point update of a map modelled as a function into `Option`. -/
def update {α : Type} (m : Nat → Option α) (k : Nat) (v : α) : Nat → Option α :=
  fun h => if h = k then some v else m h

/-- `set.Add` guarded by `set.Has`, as `add` performs it on a bucket. -/
def bucketAdd (b : List Nat) (h : Nat) : List Nat :=
  if h ∈ b then b else b ++ [h]

/-- The expiration-index update of `add`: lazily create the bucket for
timestamp `t` when its map entry is nil, then add `h` to it unless present. -/
def expirationsAdd (exps : List (Nat × List Nat)) (t h : Nat) :
    List (Nat × List Nat) :=
  if exps.any (fun tb => tb.1 = t) then
    exps.map (fun tb => if tb.1 = t then (tb.1, bucketAdd tb.2 h) else tb)
  else exps ++ [(t, bucketAdd [] h)]

/-- The pool mutation of `add`'s insert branch: store the envelope under its
hash and index the hash under the envelope's expiry timestamp. -/
def WState.insertEnvelope (st : WState) (env : Envelope) : WState :=
  { st with
    envelopes := update st.envelopes env.Hash env
    expirations := expirationsAdd st.expirations env.Expiry env.Hash }

/-- `postEvent`: hand the envelope to the watchers (asynchronously, modelled
as appending its hash to the dispatch log) unless its declared version
exceeds the supported ceiling. -/
def postEvent (p : Params) (env : Envelope) (st : WState) : WState :=
  if env.Ver ≤ p.EnvelopeVersion then
    { st with dispatches := st.dispatches ++ [env.Hash] }
  else st

/-- The part of `add` after the future-dating check: staleness check, size
checks, PoW gate, then deduplicated insertion and dispatch. -/
def addExpiryOn (p : Params) (tst : Bool) (now : Nat) (envelope : Envelope)
    (st : WState) : Except String WState :=
  if envelope.Expiry < now then
    if add32 envelope.Expiry (p.SynchAllowance * 2) < now then
      .error "very old message"
    else
      .ok st
  else if envelope.DataLen > p.MaxMessageLength then
    .error "huge messages are not allowed"
  else if envelope.VersionLen > 4 then
    .error "oversized Version"
  else if envelope.AESNonceLen > p.AESNonceMaxLength then
    .error "oversized AESNonce"
  else if envelope.SaltLen > p.saltLength then
    .error "oversized Salt"
  else if envelope.PoW < p.MinimumPoW ∧ tst = false then
    .ok st
  else if (st.envelopes envelope.Hash).isSome then
    .ok st
  else
    .ok (postEvent p envelope (st.insertEnvelope envelope))

/-- `Whisper.add`: admission control.  `sent = envelope.Expiry - envelope.TTL`
in wrapping `uint32` arithmetic; an envelope declared sent more than the
allowance into the future is a protocol violation, one within the allowance
has its PoW recomputed for the shortened effective TTL `sent - now + 1`. -/
def Whisper.add (p : Params) (tst : Bool) (now : Nat) (envelope : Envelope)
    (st : WState) : Except String WState :=
  if sub32 envelope.Expiry envelope.TTL > now then
    if sub32 (sub32 envelope.Expiry envelope.TTL) p.SynchAllowance > now then
      .error "message created in the future"
    else
      addExpiryOn p tst now
        (envelope.calculatePoW (add32 (sub32 envelope.Expiry envelope.TTL - now) 1)) st
  else
    addExpiryOn p tst now envelope st

/-- The hashes listed in expiration buckets whose timestamp is at or before
`now`: exactly those the sweep removes. -/
def expiredHashes (exps : List (Nat × List Nat)) (now : Nat) : List Nat :=
  (exps.filter (fun tb => tb.1 ≤ now)).foldr (fun tb r => tb.2 ++ r) []

/-- `Whisper.expire`: one sweep at time `now`.  Buckets with a future
timestamp are skipped; buckets at or before `now` have every listed hash
removed from both maps and are then cleared (kept in the index, emptied). -/
def expire (now : Nat) (st : WState) : WState :=
  { st with
    envelopes := fun h =>
      if h ∈ expiredHashes st.expirations now then none else st.envelopes h
    messages := fun h =>
      if h ∈ expiredHashes st.expirations now then none else st.messages h
    expirations :=
      st.expirations.map (fun tb => if tb.1 ≤ now then (tb.1, ([] : List Nat)) else tb) }

/-- `Whisper.addDecryptedMessage`: the decryption callback stores the message
under its originating envelope's hash. -/
def addDecryptedMessage (msg : ReceivedMessage) (st : WState) : WState :=
  { st with messages := update st.messages msg.EnvelopeHash msg }

/-- The pool states reachable from the fresh node by any interleaving of
admissions, sweeps and decryption callbacks. -/
inductive Reachable (p : Params) (tst : Bool) : WState → Prop where
  | init : Reachable p tst initialWhisper
  | addStep {st st' : WState} (now : Nat) (env : Envelope) :
      Reachable p tst st → Whisper.add p tst now env st = .ok st' →
      Reachable p tst st'
  | expireStep {st : WState} (now : Nat) :
      Reachable p tst st → Reachable p tst (expire now st)
  | msgStep {st : WState} (msg : ReceivedMessage) :
      Reachable p tst st → Reachable p tst (addDecryptedMessage msg st)

/-- Modelled from the spec: the `ecdsa.PrivateKey` fields `whisper.go`
inspects — the private scalar `D` and the public point coordinates `X`, `Y`
(as `big.Int` values; `Sign() != 0` becomes `!= 0`).  Keys handed to the
validators are non-nil, so nil pointers are not modelled. -/
structure PrivateKey where
  D : Int
  X : Int
  Y : Int

/-- `ValidatePublicKey` on the public part of a key: both coordinates
non-degenerate. -/
def ValidatePublicKey (k : PrivateKey) : Bool :=
  k.X != 0 && k.Y != 0

/-- `validatePrivateKey`: private scalar non-zero and public part valid. -/
def validatePrivateKey (k : PrivateKey) : Bool :=
  k.D != 0 && ValidatePublicKey k

/-- `containsOnlyZeros`. -/
def containsOnlyZeros (data : List Nat) : Bool :=
  data.all (fun b => b == 0)

/-- `validateSymmetricKey` returns false if the key is empty or all zeros. -/
def validateSymmetricKey (k : List Nat) : Bool :=
  decide (k.length > 0) && !containsOnlyZeros k

/-- The key store of a `Whisper` node: identities keyed by the hex encoding
of their public key, symmetric keys keyed by caller-chosen name. -/
structure KeyState where
  privateKeys : String → Option PrivateKey
  symKeys : String → Option (List Nat)

/-- The key store made by `NewWhisper`: both maps empty. -/
def initialKeys : KeyState :=
  { privateKeys := fun _ => none
    symKeys := fun _ => none }

/-- Point update (insertion or deletion) of a string-keyed map. -/
def updateS {α : Type} (m : String → Option α) (k : String) (v : Option α) :
    String → Option α :=
  fun s => if s = k then v else m s

/-- `HasIdentity`. -/
def HasIdentity (w : KeyState) (pubKey : String) : Bool :=
  (w.privateKeys pubKey).isSome

/-- `GetIdentity`. -/
def GetIdentity (w : KeyState) (pubKey : String) : Option PrivateKey :=
  w.privateKeys pubKey

/-- `DeleteIdentity`. -/
def DeleteIdentity (w : KeyState) (key : String) : KeyState :=
  { w with privateKeys := updateS w.privateKeys key none }

/-- `HasSymKey`. -/
def HasSymKey (w : KeyState) (name : String) : Bool :=
  (w.symKeys name).isSome

/-- `GetSymKey`. -/
def GetSymKey (w : KeyState) (name : String) : Option (List Nat) :=
  w.symKeys name

/-- `DeleteSymKey`. -/
def DeleteSymKey (w : KeyState) (name : String) : KeyState :=
  { w with symKeys := updateS w.symKeys name none }

/-- `NewIdentity`: generate a key, retry exactly once if generation failed or
the key does not validate, abort (Go: `panic`, modelled as the `.error`
branch) if the retried attempt still failed or is still invalid, otherwise
store the key under the hex encoding of its public key.  The two draws of
`crypto.GenerateKey` and the encoding `crypto.FromECDSAPub`/`ToHex` are
external collaborators, passed in as `g1`, `g2` and `enc`. -/
def NewIdentity (enc : PrivateKey → String) (g1 g2 : Except String PrivateKey)
    (w : KeyState) : Except String (PrivateKey × KeyState) :=
  match (match g1 with
         | .error _ => g2
         | .ok k => if validatePrivateKey k then .ok k else g2) with
  | .error e => .error e
  | .ok key =>
    if validatePrivateKey key then
      .ok (key, { w with privateKeys := updateS w.privateKeys (enc key) (some key) })
    else
      .error "Failed to generate valid key"

/-- `deriveKeyMaterial` (`DeriveSymmetricKey`): version 0 derives via pbkdf2
(the external derivation is the parameter `kdf`), any other version fails
with the unknown-version error. -/
def deriveKeyMaterial (kdf : List Nat → List Nat) (key : List Nat)
    (version : Nat) : Except String (List Nat) :=
  if version = 0 then .ok (kdf key) else .error "unknown version"

/-- `AddSymKey`: reject a present name, derive from the caller's material,
re-check the name (the Go double check under lock after the slow derivation)
and store.  The error component is `none` on success; the state component is
the (un)changed key store. -/
def AddSymKey (kdf : List Nat → List Nat) (ver : Nat) (w : KeyState)
    (name : String) (key : List Nat) : Option String × KeyState :=
  if HasSymKey w name then
    (some ("Key with name [" ++ name ++ "] already exists"), w)
  else
    match deriveKeyMaterial kdf key ver with
    | .error e => (some e, w)
    | .ok derived =>
      if (w.symKeys name).isSome then
        (some ("Key with name [" ++ name ++ "] already exists"), w)
      else
        (none, { w with symKeys := updateS w.symKeys name (some derived) })

/-- `GenerateSymKey`: validate the strong draw `buf` and the weak draw
`buf2`, combine them by exclusive-or, split into key and salt at
`aesKeyLength`, derive through `DeriveOneTimeKey` (the external collaborator
`dotk`, at version `ver`), validate the derivation, then store under `name`
unless the name is already present. -/
def GenerateSymKey (aesKeyLength : Nat)
    (dotk : List Nat → List Nat → Nat → Except String (List Nat)) (ver : Nat)
    (w : KeyState) (name : String) (buf buf2 : List Nat) :
    Option String × KeyState :=
  if validateSymmetricKey buf = false then
    (some "error in GenerateSymKey: crypto/rand failed to generate random data", w)
  else if validateSymmetricKey buf2 = false then
    (some "error in GenerateSymKey: math/rand failed to generate random data", w)
  else
    match dotk ((List.zipWith Nat.xor buf buf2).take aesKeyLength)
        ((List.zipWith Nat.xor buf buf2).drop aesKeyLength) ver with
    | .error e => (some e, w)
    | .ok derived =>
      if validateSymmetricKey derived = false then
        (some "failed to derive valid key", w)
      else if (w.symKeys name).isSome then
        (some ("Key with name [" ++ name ++ "] already exists"), w)
      else
        (none, { w with symKeys := updateS w.symKeys name (some derived) })

/-- The envelope as it proceeds past `add`'s future-dating check: PoW
recomputed for the shortened effective TTL `sent - now + 1` when the declared
send time lies (tolerably) in the future, unchanged otherwise. -/
def effectiveEnv (now : Nat) (e : Envelope) : Envelope :=
  if sub32 e.Expiry e.TTL > now then
    e.calculatePoW (add32 (sub32 e.Expiry e.TTL - now) 1)
  else e

/-- An envelope that `add` at time `now` accepts into the pool (when not yet
cached) and dispatches: it passes the future-dating, staleness, size, PoW and
version checks. -/
def validFor (p : Params) (tst : Bool) (now : Nat) (env : Envelope) : Prop :=
  (sub32 env.Expiry env.TTL > now →
    sub32 (sub32 env.Expiry env.TTL) p.SynchAllowance ≤ now) ∧
  ¬ env.Expiry < now ∧
  ¬ env.DataLen > p.MaxMessageLength ∧
  ¬ env.VersionLen > 4 ∧
  ¬ env.AESNonceLen > p.AESNonceMaxLength ∧
  ¬ env.SaltLen > p.saltLength ∧
  (p.MinimumPoW ≤ (effectiveEnv now env).PoW ∨ tst = true) ∧
  env.Ver ≤ p.EnvelopeVersion

/-- The expiration-index keys (timestamps) are pairwise distinct, as they are
for a Go map. -/
def keysNodup (exps : List (Nat × List Nat)) : Prop :=
  List.Nodup (exps.map Prod.fst)

/-- The pool invariant tying the envelope map to the expiration index: keys
are distinct, every pooled envelope's hash sits in the bucket of its expiry
timestamp, and every bucketed hash belongs to a pooled envelope whose expiry
is the bucket's timestamp. -/
def PoolInv (st : WState) : Prop :=
  keysNodup st.expirations ∧
  (∀ h env, st.envelopes h = some env →
    ∃ b, (env.Expiry, b) ∈ st.expirations ∧ h ∈ b) ∧
  (∀ t b h, (t, b) ∈ st.expirations → h ∈ b →
    ∃ env, st.envelopes h = some env ∧ env.Expiry = t)

/-- A key-generation attempt that did not produce a valid key: it either
errored or returned a key failing `validatePrivateKey`. -/
def invalidAttempt (g : Except String PrivateKey) : Prop :=
  ∀ k, g = .ok k → validatePrivateKey k = false

/-- Concrete parameters for witnesses: allowance 10 s, message cap 100 bytes,
nonce cap and salt length 12, minimum PoW 1, version ceiling 0. -/
def p0 : Params := ⟨10, 100, 12, 12, 1, 0⟩

/-- A concrete valid envelope: expiry 5, TTL 5, empty fields, version 0,
hash 77, PoW score 1. -/
def env0 : Envelope := ⟨5, 5, 0, 0, 0, 0, 0, 77, 1, fun _ => 1⟩

/-- The pool state after admitting `env0` into the fresh node. -/
def st1 : WState := postEvent p0 env0 (initialWhisper.insertEnvelope env0)

/-- A concrete future-dated envelope: declared sent at 1011, beyond the
allowance at time 1000. -/
def envC2 : Envelope := ⟨1011, 0, 0, 0, 0, 0, 0, 5, 1, fun _ => 1⟩

/-- A concrete marginally expired envelope (expiry 999 at time 1000) whose
TTL exceeds its expiry, so its declared send time wraps far into the
future. -/
def envC3 : Envelope := ⟨999, 2000, 0, 0, 0, 0, 0, 9, 1, fun _ => 1⟩

/-- A concrete marginally expired envelope with an unremarkable TTL. -/
def envC3b : Envelope := ⟨999, 100, 0, 0, 0, 0, 0, 9, 1, fun _ => 1⟩

/-- A concrete envelope whose PoW score 0 is below the minimum threshold. -/
def envC4 : Envelope := ⟨50, 40, 0, 0, 0, 0, 0, 33, 0, fun _ => 0⟩

/-- A concrete envelope with TTL greater than expiry, triggering the
`uint32` underflow of `sent = expiry - ttl`. -/
def envC10 : Envelope := ⟨100, 200, 0, 0, 0, 0, 0, 8, 1, fun _ => 1⟩

/-- A concrete pool state for the sweep witness: hash 1 expires at 5, hash 2
at 10, each pooled and with a decrypted message. -/
def c5st : WState :=
  { envelopes := fun h =>
      if h = 1 then some ⟨5, 1, 0, 0, 0, 0, 0, 1, 1, fun _ => 1⟩
      else if h = 2 then some ⟨10, 1, 0, 0, 0, 0, 0, 2, 1, fun _ => 1⟩
      else none
    messages := fun h => if h = 1 then some ⟨1⟩ else if h = 2 then some ⟨2⟩ else none
    expirations := [(5, [1]), (10, [2])]
    dispatches := [1, 2] }

/-- A concrete key store holding the symmetric key `[1]` under the name `a`
and an identity under the public-key string `pk`. -/
def ks0 : KeyState :=
  { privateKeys := fun s => if s = "pk" then some ⟨1, 1, 1⟩ else none
    symKeys := fun s => if s = "a" then some [1] else none }

/-! ### Helper lemmas -/

theorem calculatePoW_Expiry (e : Envelope) (d : Nat) :
    (e.calculatePoW d).Expiry = e.Expiry := rfl

theorem calculatePoW_Hash (e : Envelope) (d : Nat) :
    (e.calculatePoW d).Hash = e.Hash := rfl

theorem effectiveEnv_Expiry (now : Nat) (e : Envelope) :
    (effectiveEnv now e).Expiry = e.Expiry := by
  unfold effectiveEnv; split <;> rfl

theorem effectiveEnv_Hash (now : Nat) (e : Envelope) :
    (effectiveEnv now e).Hash = e.Hash := by
  unfold effectiveEnv; split <;> rfl

theorem effectiveEnv_DataLen (now : Nat) (e : Envelope) :
    (effectiveEnv now e).DataLen = e.DataLen := by
  unfold effectiveEnv; split <;> rfl

theorem effectiveEnv_VersionLen (now : Nat) (e : Envelope) :
    (effectiveEnv now e).VersionLen = e.VersionLen := by
  unfold effectiveEnv; split <;> rfl

theorem effectiveEnv_AESNonceLen (now : Nat) (e : Envelope) :
    (effectiveEnv now e).AESNonceLen = e.AESNonceLen := by
  unfold effectiveEnv; split <;> rfl

theorem effectiveEnv_SaltLen (now : Nat) (e : Envelope) :
    (effectiveEnv now e).SaltLen = e.SaltLen := by
  unfold effectiveEnv; split <;> rfl

theorem effectiveEnv_Ver (now : Nat) (e : Envelope) :
    (effectiveEnv now e).Ver = e.Ver := by
  unfold effectiveEnv; split <;> rfl

theorem postEvent_envelopes (p : Params) (e : Envelope) (st : WState) :
    (postEvent p e st).envelopes = st.envelopes := by
  unfold postEvent; split <;> rfl

theorem postEvent_messages (p : Params) (e : Envelope) (st : WState) :
    (postEvent p e st).messages = st.messages := by
  unfold postEvent; split <;> rfl

theorem postEvent_expirations (p : Params) (e : Envelope) (st : WState) :
    (postEvent p e st).expirations = st.expirations := by
  unfold postEvent; split <;> rfl

theorem postEvent_dispatches_of_le (p : Params) (e : Envelope) (st : WState)
    (h : e.Ver ≤ p.EnvelopeVersion) :
    (postEvent p e st).dispatches = st.dispatches ++ [e.Hash] := by
  unfold postEvent; rw [if_pos h]

/-- `add` with the declared send time beyond tolerance is the future-dating
protocol violation. -/
theorem add_of_future_reject {p : Params} {tst : Bool} {now : Nat}
    {env : Envelope} (st : WState)
    (h1 : sub32 env.Expiry env.TTL > now)
    (h2 : sub32 (sub32 env.Expiry env.TTL) p.SynchAllowance > now) :
    Whisper.add p tst now env st = .error "message created in the future" := by
  unfold Whisper.add; rw [if_pos h1, if_pos h2]

/-- `add` past the future-dating check processes the effective envelope. -/
theorem add_eq_addExpiryOn {p : Params} {tst : Bool} {now : Nat}
    {env : Envelope} (st : WState)
    (h : ¬(sub32 env.Expiry env.TTL > now ∧
           sub32 (sub32 env.Expiry env.TTL) p.SynchAllowance > now)) :
    Whisper.add p tst now env st =
      addExpiryOn p tst now (effectiveEnv now env) st := by
  unfold Whisper.add effectiveEnv
  by_cases h1 : sub32 env.Expiry env.TTL > now
  · rw [if_pos h1, if_pos h1, if_neg (fun h2 => h ⟨h1, h2⟩)]
  · rw [if_neg h1, if_neg h1]

/-- The stage after the future-dating check never reports the future-dating
violation. -/
theorem addExpiryOn_ne_future (p : Params) (tst : Bool) (now : Nat)
    (e : Envelope) (st : WState) :
    addExpiryOn p tst now e st ≠ .error "message created in the future" := by
  unfold addExpiryOn
  repeat' split
  all_goals intro hc
  all_goals first
    | exact absurd (Except.error.inj hc) (by decide)
    | cases hc

/-- The insert branch of `addExpiryOn`: all checks passed and the hash is not
yet cached. -/
theorem addExpiryOn_insert {p : Params} {tst : Bool} {now : Nat}
    {e : Envelope} {st : WState}
    (hexp : ¬ e.Expiry < now)
    (hd : ¬ e.DataLen > p.MaxMessageLength)
    (hv : ¬ e.VersionLen > 4)
    (hn : ¬ e.AESNonceLen > p.AESNonceMaxLength)
    (hs : ¬ e.SaltLen > p.saltLength)
    (hpow : ¬(e.PoW < p.MinimumPoW ∧ tst = false))
    (hc : (st.envelopes e.Hash).isSome = false) :
    addExpiryOn p tst now e st = .ok (postEvent p e (st.insertEnvelope e)) := by
  unfold addExpiryOn
  rw [if_neg hexp, if_neg hd, if_neg hv, if_neg hn, if_neg hs, if_neg hpow,
    if_neg (by rw [hc]; exact Bool.false_ne_true)]

/-- The duplicate branch of `addExpiryOn`: all checks passed but the hash is
already cached, so nothing happens. -/
theorem addExpiryOn_dup {p : Params} {tst : Bool} {now : Nat}
    {e : Envelope} {st : WState}
    (hexp : ¬ e.Expiry < now)
    (hd : ¬ e.DataLen > p.MaxMessageLength)
    (hv : ¬ e.VersionLen > 4)
    (hn : ¬ e.AESNonceLen > p.AESNonceMaxLength)
    (hs : ¬ e.SaltLen > p.saltLength)
    (hpow : ¬(e.PoW < p.MinimumPoW ∧ tst = false))
    (hc : (st.envelopes e.Hash).isSome = true) :
    addExpiryOn p tst now e st = .ok st := by
  unfold addExpiryOn
  rw [if_neg hexp, if_neg hd, if_neg hv, if_neg hn, if_neg hs, if_neg hpow,
    if_pos hc]

/-- Every successful `addExpiryOn` either leaves the state unchanged or, with
the PoW gate passed and the hash fresh, inserts and dispatches. -/
theorem addExpiryOn_ok_cases {p : Params} {tst : Bool} {now : Nat}
    {e : Envelope} {st st' : WState}
    (h : addExpiryOn p tst now e st = .ok st') :
    st' = st ∨
      (¬(e.PoW < p.MinimumPoW ∧ tst = false) ∧ st.envelopes e.Hash = none ∧
        st' = postEvent p e (st.insertEnvelope e)) := by
  unfold addExpiryOn at h
  repeat' split at h
  all_goals first
    | (left; exact (Except.ok.inj h).symm)
    | (right
       refine ⟨by assumption, ?_, (Except.ok.inj h).symm⟩
       rename_i hcn
       exact Option.not_isSome_iff_eq_none.mp hcn)
    | cases h

/-- Every successful `add` either leaves the state unchanged or inserts the
effective envelope (fresh hash, PoW gate passed) and dispatches it. -/
theorem add_ok_cases {p : Params} {tst : Bool} {now : Nat}
    {env : Envelope} {st st' : WState}
    (h : Whisper.add p tst now env st = .ok st') :
    st' = st ∨
      (¬((effectiveEnv now env).PoW < p.MinimumPoW ∧ tst = false) ∧
        st.envelopes (effectiveEnv now env).Hash = none ∧
        st' = postEvent p (effectiveEnv now env)
          (st.insertEnvelope (effectiveEnv now env))) := by
  by_cases hf : sub32 env.Expiry env.TTL > now ∧
      sub32 (sub32 env.Expiry env.TTL) p.SynchAllowance > now
  · rw [add_of_future_reject st hf.1 hf.2] at h
    cases h
  · rw [add_eq_addExpiryOn st hf] at h
    exact addExpiryOn_ok_cases h

/-- `uint32` subtraction with no underflow is plain subtraction. -/
theorem sub32_eq_of_le {a b : Nat} (hba : b ≤ a) (ha : a < pow32) :
    sub32 a b = a - b := by
  have hb : b < pow32 := Nat.lt_of_le_of_lt hba ha
  unfold sub32
  rw [Nat.mod_eq_of_lt hb]
  have h1 : a + (pow32 - b) = (a - b) + pow32 := by omega
  rw [h1, Nat.add_mod_right, Nat.mod_eq_of_lt (by omega)]

/-- `uint32` subtraction with underflow wraps by one modulus. -/
theorem sub32_eq_of_lt {a b : Nat} (hab : a < b) (hb : b < pow32) :
    sub32 a b = a + pow32 - b := by
  unfold sub32
  rw [Nat.mod_eq_of_lt hb]
  have h1 : a + (pow32 - b) = a + pow32 - b := by omega
  rw [h1, Nat.mod_eq_of_lt (by omega)]

theorem mem_bucketAdd_self (b : List Nat) (h : Nat) : h ∈ bucketAdd b h := by
  unfold bucketAdd
  split
  · assumption
  · exact List.mem_append_right b (List.mem_singleton.mpr rfl)

theorem subset_bucketAdd (b : List Nat) (h : Nat) : b ⊆ bucketAdd b h := by
  unfold bucketAdd
  split
  · exact fun _ hx => hx
  · exact fun _ hx => List.mem_append_left _ hx

theorem mem_of_mem_bucketAdd {b : List Nat} {h h' : Nat}
    (hm : h' ∈ bucketAdd b h) : h' ∈ b ∨ h' = h := by
  unfold bucketAdd at hm
  split at hm
  · exact Or.inl hm
  · rcases List.mem_append.mp hm with hm | hm
    · exact Or.inl hm
    · exact Or.inr (List.mem_singleton.mp hm)

/-- If the index has no entry for `t`, no member of the index is keyed `t`. -/
theorem not_key_of_any_eq_false {exps : List (Nat × List Nat)} {t : Nat}
    (h : exps.any (fun tb => tb.1 = t) = false) :
    ∀ tb ∈ exps, tb.1 ≠ t := by
  intro tb htb
  have := List.any_eq_false.mp h tb htb
  simpa using this

theorem keysNodup_expirationsAdd {exps : List (Nat × List Nat)} {t h : Nat}
    (hk : keysNodup exps) : keysNodup (expirationsAdd exps t h) := by
  unfold expirationsAdd
  split
  · unfold keysNodup
    have hmap : (exps.map fun tb => if tb.1 = t then (tb.1, bucketAdd tb.2 h) else tb).map
        Prod.fst = exps.map Prod.fst := by
      rw [List.map_map]
      refine List.map_congr_left ?_
      intro tb _
      by_cases hc : tb.1 = t <;> simp [hc]
    rw [hmap]; exact hk
  · unfold keysNodup
    rw [List.map_append]
    refine List.Nodup.append hk (List.nodup_singleton t) ?_
    intro x hx hx'
    rcases List.mem_map.mp hx with ⟨tb, htb, rfl⟩
    rename_i hany
    exact not_key_of_any_eq_false (Bool.not_eq_true _ ▸ hany :) tb htb
      (by simpa using hx')

/-- After `expirationsAdd exps t h`, the bucket keyed `t` exists and holds
`h`. -/
theorem expirationsAdd_mem_self (exps : List (Nat × List Nat)) (t h : Nat) :
    ∃ b, (t, b) ∈ expirationsAdd exps t h ∧ h ∈ b := by
  unfold expirationsAdd
  split
  · rename_i hany
    rcases List.any_eq_true.mp hany with ⟨tb, htb, htbt⟩
    have htbt' : tb.1 = t := by simpa using htbt
    refine ⟨bucketAdd tb.2 h, ?_, mem_bucketAdd_self _ _⟩
    have : (fun tb : Nat × List Nat =>
        if tb.1 = t then (tb.1, bucketAdd tb.2 h) else tb) tb = (t, bucketAdd tb.2 h) := by
      simp [htbt']
    exact this ▸ List.mem_map_of_mem _ htb
  · exact ⟨bucketAdd [] h, List.mem_append_right _ (List.mem_singleton.mpr rfl),
      mem_bucketAdd_self _ _⟩

/-- `expirationsAdd` only grows buckets: every pre-existing entry survives
with a superset bucket under its own key. -/
theorem expirationsAdd_mem_of_mem {exps : List (Nat × List Nat)}
    {t' : Nat} {b : List Nat} (htb : (t', b) ∈ exps) (t h : Nat) :
    ∃ b', (t', b') ∈ expirationsAdd exps t h ∧ b ⊆ b' := by
  unfold expirationsAdd
  split
  · by_cases hc : t' = t
    · refine ⟨bucketAdd b h, ?_, subset_bucketAdd _ _⟩
      have : (fun tb : Nat × List Nat =>
          if tb.1 = t then (tb.1, bucketAdd tb.2 h) else tb) (t', b) = (t', bucketAdd b h) := by
        simp [hc]
      exact this ▸ List.mem_map_of_mem _ htb
    · refine ⟨b, ?_, fun _ hx => hx⟩
      have : (fun tb : Nat × List Nat =>
          if tb.1 = t then (tb.1, bucketAdd tb.2 h) else tb) (t', b) = (t', b) := by
        simp [hc]
      exact this ▸ List.mem_map_of_mem _ htb
  · exact ⟨b, List.mem_append_left _ htb, fun _ hx => hx⟩

/-- Conversely, a hash found in the updated index either is the freshly added
one under its timestamp or was already indexed. -/
theorem mem_of_mem_expirationsAdd {exps : List (Nat × List Nat)}
    {t h t' h' : Nat} {b' : List Nat}
    (hm : (t', b') ∈ expirationsAdd exps t h) (hh : h' ∈ b') :
    (h' = h ∧ t' = t) ∨ ∃ b₀, (t', b₀) ∈ exps ∧ h' ∈ b₀ := by
  unfold expirationsAdd at hm
  split at hm
  · rcases List.mem_map.mp hm with ⟨tb, htb, heq⟩
    by_cases hc : tb.1 = t
    · rw [if_pos hc] at heq
      have ht' : t' = tb.1 := by cases heq; rfl
      have hb' : b' = bucketAdd tb.2 h := by cases heq; rfl
      rcases mem_of_mem_bucketAdd (hb' ▸ hh) with hin | hin
      · exact Or.inr ⟨tb.2, by rw [ht']; exact htb, hin⟩
      · exact Or.inl ⟨hin, by rw [ht', hc]⟩
    · rw [if_neg hc] at heq
      exact Or.inr ⟨b', heq ▸ htb, hh⟩
  · rcases List.mem_append.mp hm with hm | hm
    · exact Or.inr ⟨b', hm, hh⟩
    · have : (t', b') = (t, bucketAdd [] h) := List.mem_singleton.mp hm
      have ht' : t' = t := by cases this; rfl
      have hb' : b' = bucketAdd [] h := by cases this; rfl
      rcases mem_of_mem_bucketAdd (hb' ▸ hh) with hin | hin
      · cases hin
      · exact Or.inl ⟨hin, ht'⟩

/-- Distinct index keys make bucket lookup functional. -/
theorem keys_unique {exps : List (Nat × List Nat)} (hk : keysNodup exps)
    {t : Nat} {b b' : List Nat} (h1 : (t, b) ∈ exps) (h2 : (t, b') ∈ exps) :
    b = b' := by
  induction exps with
  | nil => cases h1
  | cons a l ih =>
    have hk' : List.Nodup (l.map Prod.fst) := (List.nodup_cons.mp hk).2
    have hnot : a.1 ∉ l.map Prod.fst := (List.nodup_cons.mp hk).1
    rcases List.mem_cons.mp h1 with h1 | h1 <;>
      rcases List.mem_cons.mp h2 with h2 | h2
    · rw [← h1] at h2; exact (Prod.mk.injEq _ _ _ _ ▸ h2 :).2.symm
    · exfalso
      exact hnot (h1 ▸ (List.mem_map_of_mem Prod.fst h2 :))
    · exfalso
      exact hnot (h2 ▸ (List.mem_map_of_mem Prod.fst h1 :))
    · exact ih hk' h1 h2

theorem expiredHashes_nil (now : Nat) : expiredHashes [] now = [] := rfl

theorem expiredHashes_cons (tb : Nat × List Nat) (rest : List (Nat × List Nat))
    (now : Nat) :
    expiredHashes (tb :: rest) now =
      if tb.1 ≤ now then tb.2 ++ expiredHashes rest now
      else expiredHashes rest now := by
  unfold expiredHashes
  rw [List.filter_cons]
  by_cases hle : tb.1 ≤ now
  · rw [if_pos (by simpa using hle), if_pos hle]
    rfl
  · rw [if_neg (by simpa using hle), if_neg hle]

/-- Membership in the sweep's removal set: listed in some bucket at or before
`now`. -/
theorem mem_expiredHashes {exps : List (Nat × List Nat)} {now h : Nat} :
    h ∈ expiredHashes exps now ↔
      ∃ t b, (t, b) ∈ exps ∧ t ≤ now ∧ h ∈ b := by
  induction exps with
  | nil =>
    rw [expiredHashes_nil]
    simp
  | cons tb rest ih =>
    rw [expiredHashes_cons]
    by_cases hle : tb.1 ≤ now
    · rw [if_pos hle]
      constructor
      · intro hm
        rcases List.mem_append.mp hm with hm | hm
        · exact ⟨tb.1, tb.2, List.mem_cons_self _ _, hle, hm⟩
        · rcases ih.mp hm with ⟨t, b, htb, ht, hb⟩
          exact ⟨t, b, List.mem_cons_of_mem _ htb, ht, hb⟩
      · rintro ⟨t, b, htb, ht, hb⟩
        rcases List.mem_cons.mp htb with htb | htb
        · refine List.mem_append_left _ ?_
          have : tb.2 = b := by cases htb; rfl
          rw [this]; exact hb
        · exact List.mem_append_right _ (ih.mpr ⟨t, b, htb, ht, hb⟩)
    · rw [if_neg hle]
      constructor
      · intro hm
        rcases ih.mp hm with ⟨t, b, htb, ht, hb⟩
        exact ⟨t, b, List.mem_cons_of_mem _ htb, ht, hb⟩
      · rintro ⟨t, b, htb, ht, hb⟩
        rcases List.mem_cons.mp htb with htb | htb
        · exfalso
          have : tb.1 = t := by cases htb; rfl
          exact hle (this ▸ ht)
        · exact ih.mpr ⟨t, b, htb, ht, hb⟩

/-- `expire` preserves the pool invariant. -/
theorem poolInv_expire {st : WState} (hInv : PoolInv st) (now : Nat) :
    PoolInv (expire now st) := by
  obtain ⟨hk, hfwd, hbwd⟩ := hInv
  refine ⟨?_, ?_, ?_⟩
  · unfold keysNodup at hk ⊢
    unfold expire
    have hmap : ((st.expirations.map fun tb =>
        if tb.1 ≤ now then (tb.1, ([] : List Nat)) else tb).map Prod.fst) =
        st.expirations.map Prod.fst := by
      rw [List.map_map]
      refine List.map_congr_left ?_
      intro tb _
      by_cases hc : tb.1 ≤ now <;> simp [hc]
    rw [hmap]; exact hk
  · intro h env henv
    unfold expire at henv
    simp only at henv
    by_cases hm : h ∈ expiredHashes st.expirations now
    · rw [if_pos hm] at henv; cases henv
    · rw [if_neg hm] at henv
      rcases hfwd h env henv with ⟨b, hb, hhb⟩
      have hgt : ¬ env.Expiry ≤ now := by
        intro hle
        exact hm (mem_expiredHashes.mpr ⟨env.Expiry, b, hb, hle, hhb⟩)
      refine ⟨b, ?_, hhb⟩
      unfold expire
      have : (fun tb : Nat × List Nat =>
          if tb.1 ≤ now then (tb.1, ([] : List Nat)) else tb) (env.Expiry, b) =
          (env.Expiry, b) := by
        simp [hgt]
      exact this ▸ List.mem_map_of_mem _ hb
  · intro t b h htb hhb
    unfold expire at htb
    simp only at htb
    rcases List.mem_map.mp htb with ⟨tb₀, htb₀, heq⟩
    by_cases hc : tb₀.1 ≤ now
    · rw [if_pos hc] at heq
      have : b = [] := by cases heq; rfl
      rw [this] at hhb; cases hhb
    · rw [if_neg hc] at heq
      have htb₀' : (t, b) ∈ st.expirations := heq ▸ htb₀
      have hct : ¬ t ≤ now := by
        have : tb₀.1 = t := by cases heq; rfl
        exact this ▸ hc
      rcases hbwd t b h htb₀' hhb with ⟨env, henv, hexp⟩
      refine ⟨env, ?_, hexp⟩
      unfold expire
      simp only
      rw [if_neg ?_]
      · exact henv
      · intro hm
        rcases mem_expiredHashes.mp hm with ⟨t', b', htb', ht', hb'⟩
        rcases hbwd t' b' h htb' hb' with ⟨env', henv', hexp'⟩
        have : env = env' := by
          have := henv.symm.trans henv'
          exact Option.some.inj this
        exact hct (hexp ▸ this ▸ hexp' ▸ ht')

/-- Insertion of a fresh envelope preserves the pool invariant. -/
theorem poolInv_insert {st : WState} {env : Envelope} (hInv : PoolInv st)
    (hfresh : st.envelopes env.Hash = none) :
    PoolInv (st.insertEnvelope env) := by
  obtain ⟨hk, hfwd, hbwd⟩ := hInv
  refine ⟨keysNodup_expirationsAdd hk, ?_, ?_⟩
  · intro h env' henv'
    unfold WState.insertEnvelope update at henv'
    simp only at henv'
    by_cases hc : h = env.Hash
    · rw [if_pos hc] at henv'
      have : env' = env := (Option.some.inj henv').symm
      subst this
      rcases expirationsAdd_mem_self st.expirations env'.Expiry env'.Hash
        with ⟨b, hb, hhb⟩
      exact ⟨b, hb, hc ▸ hhb⟩
    · rw [if_neg hc] at henv'
      rcases hfwd h env' henv' with ⟨b, hb, hhb⟩
      rcases expirationsAdd_mem_of_mem hb env.Expiry env.Hash with ⟨b', hb', hsub⟩
      exact ⟨b', hb', hsub hhb⟩
  · intro t b h htb hhb
    unfold WState.insertEnvelope at htb
    simp only at htb
    rcases mem_of_mem_expirationsAdd htb hhb with ⟨rfl, rfl⟩ | ⟨b₀, hb₀, hhb₀⟩
    · refine ⟨env, ?_, rfl⟩
      unfold WState.insertEnvelope update
      simp
    · rcases hbwd t b₀ h hb₀ hhb₀ with ⟨env', henv', hexp'⟩
      refine ⟨env', ?_, hexp'⟩
      unfold WState.insertEnvelope update
      simp only
      rw [if_neg ?_]
      · exact henv'
      · intro hc
        rw [hc, hfresh] at henv'
        cases henv'

/-- Every reachable pool state satisfies the pool invariant. -/
theorem reachable_poolInv {p : Params} {tst : Bool} {st : WState}
    (h : Reachable p tst st) : PoolInv st := by
  induction h with
  | init =>
    refine ⟨List.nodup_nil, ?_, ?_⟩
    · intro h env henv
      cases henv
    · intro t b h htb
      cases htb
  | addStep now env _ hadd ih =>
    rcases add_ok_cases hadd with rfl | ⟨_, hfresh, rfl⟩
    · exact ih
    · have hins := poolInv_insert ih hfresh
      obtain ⟨hk, hfwd, hbwd⟩ := hins
      exact ⟨by rw [postEvent_expirations]; exact hk,
        by rw [postEvent_expirations, postEvent_envelopes]; exact hfwd,
        by rw [postEvent_expirations, postEvent_envelopes]; exact hbwd⟩
  | expireStep now _ ih => exact poolInv_expire ih now
  | msgStep msg _ ih => exact ⟨ih.1, ih.2.1, ih.2.2⟩

/-- In non-test mode, every envelope ever pooled passed the PoW gate. -/
theorem reachable_pow {p : Params} {st : WState}
    (h : Reachable p false st) :
    ∀ hs e, st.envelopes hs = some e → p.MinimumPoW ≤ e.PoW := by
  induction h with
  | init => intro hs e he; cases he
  | addStep now env _ hadd ih =>
    rcases add_ok_cases hadd with rfl | ⟨hgate, hfresh, rfl⟩
    · exact ih
    · intro hs e he
      rw [postEvent_envelopes] at he
      unfold WState.insertEnvelope update at he
      simp only at he
      by_cases hc : hs = (effectiveEnv now env).Hash
      · rw [if_pos hc] at he
        have heq : e = effectiveEnv now env := (Option.some.inj he).symm
        by_cases hlt : (effectiveEnv now env).PoW < p.MinimumPoW
        · exact absurd ⟨hlt, rfl⟩ hgate
        · rw [heq]; exact le_of_not_lt hlt
      · rw [if_neg hc] at he
        exact ih hs e he
  | expireStep now _ ih =>
    intro hs e he
    unfold expire at he
    simp only at he
    rename_i stp _
    by_cases hm : hs ∈ expiredHashes stp.expirations now
    · rw [if_pos hm] at he; cases he
    · rw [if_neg hm] at he; exact ih hs e he
  | msgStep msg _ ih => exact ih

/-! ### Claims -/

/-- C1: Admission is idempotent: adding a valid envelope twice to the fresh
node yields exactly one pool entry (its own hash, nothing else) and exactly
one dispatch to the watchers; the second call returns success, performs no
pool mutation and no re-dispatch. -/
theorem C1_add_idempotent (p : Params) (tst : Bool) (now : Nat) (env : Envelope)
    (hv : validFor p tst now env) :
    ∃ stp, Whisper.add p tst now env initialWhisper = .ok stp ∧
      Whisper.add p tst now env stp = .ok stp ∧
      (∃ e', stp.envelopes env.Hash = some e') ∧
      (∀ h, h ≠ env.Hash → stp.envelopes h = none) ∧
      stp.dispatches = [env.Hash] := by
  obtain ⟨h1, h2, h3, h4, h5, h6, h7, h8⟩ := hv
  have hnf : ¬(sub32 env.Expiry env.TTL > now ∧
      sub32 (sub32 env.Expiry env.TTL) p.SynchAllowance > now) := by
    rintro ⟨ha, hb⟩
    exact absurd hb (not_lt.mpr (h1 ha))
  have hgate : ¬((effectiveEnv now env).PoW < p.MinimumPoW ∧ tst = false) := by
    rintro ⟨hlt, htst⟩
    rcases h7 with h7 | h7
    · exact absurd hlt (not_lt.mpr h7)
    · rw [htst] at h7; cases h7
  have hexp : ¬ (effectiveEnv now env).Expiry < now := by
    rw [effectiveEnv_Expiry]; exact h2
  have hd : ¬ (effectiveEnv now env).DataLen > p.MaxMessageLength := by
    rw [effectiveEnv_DataLen]; exact h3
  have hvl : ¬ (effectiveEnv now env).VersionLen > 4 := by
    rw [effectiveEnv_VersionLen]; exact h4
  have hn : ¬ (effectiveEnv now env).AESNonceLen > p.AESNonceMaxLength := by
    rw [effectiveEnv_AESNonceLen]; exact h5
  have hsl : ¬ (effectiveEnv now env).SaltLen > p.saltLength := by
    rw [effectiveEnv_SaltLen]; exact h6
  refine ⟨postEvent p (effectiveEnv now env)
    (initialWhisper.insertEnvelope (effectiveEnv now env)), ?_, ?_, ?_, ?_, ?_⟩
  · rw [add_eq_addExpiryOn _ hnf]
    exact addExpiryOn_insert hexp hd hvl hn hsl hgate rfl
  · rw [add_eq_addExpiryOn _ hnf]
    refine addExpiryOn_dup hexp hd hvl hn hsl hgate ?_
    rw [postEvent_envelopes]
    unfold WState.insertEnvelope update
    simp
  · rw [postEvent_envelopes]
    unfold WState.insertEnvelope update
    simp only
    rw [effectiveEnv_Hash, if_pos rfl]
    exact ⟨effectiveEnv now env, rfl⟩
  · intro h hne
    rw [postEvent_envelopes]
    unfold WState.insertEnvelope update
    simp only
    rw [if_neg (by rw [effectiveEnv_Hash]; exact hne)]
    rfl
  · rw [postEvent_dispatches_of_le _ _ _ (by rw [effectiveEnv_Ver]; exact h8)]
    rw [effectiveEnv_Hash]
    rfl

/-- C1 witness: the concrete valid envelope `env0` at time 0 on the fresh
node. -/
theorem C1_add_idempotent_witness :
    ∃ stp, Whisper.add p0 false 0 env0 initialWhisper = .ok stp ∧
      Whisper.add p0 false 0 env0 stp = .ok stp ∧
      (∃ e', stp.envelopes env0.Hash = some e') ∧
      (∀ h, h ≠ env0.Hash → stp.envelopes h = none) ∧
      stp.dispatches = [env0.Hash] :=
  C1_add_idempotent p0 false 0 env0 (by unfold validFor; decide)

/-- C2: Future-dating boundary of `add`: for an envelope whose declared send
time `sent = expiry - ttl` (`uint32` arithmetic) is beyond `now`, `add` fails
with the protocol-violation error "created in the future" exactly when
`sent - allowance` (again `uint32`) exceeds `now`; otherwise the envelope's
PoW score is recomputed with adjusted effective TTL `sent - now + 1` and
processing continues (the remaining stages run on the recomputed
envelope). -/
theorem C2_future_boundary (p : Params) (tst : Bool) (now : Nat)
    (env : Envelope) (st : WState)
    (hsent : sub32 env.Expiry env.TTL > now) :
    (Whisper.add p tst now env st = .error "message created in the future" ↔
      sub32 (sub32 env.Expiry env.TTL) p.SynchAllowance > now) ∧
    (sub32 (sub32 env.Expiry env.TTL) p.SynchAllowance ≤ now →
      Whisper.add p tst now env st =
        addExpiryOn p tst now
          (env.calculatePoW (add32 (sub32 env.Expiry env.TTL - now) 1)) st) := by
  have hcont : ∀ hle : ¬ sub32 (sub32 env.Expiry env.TTL) p.SynchAllowance > now,
      Whisper.add p tst now env st =
        addExpiryOn p tst now
          (env.calculatePoW (add32 (sub32 env.Expiry env.TTL - now) 1)) st := by
    intro hle
    unfold Whisper.add
    rw [if_pos hsent, if_neg hle]
  constructor
  · constructor
    · intro herr
      by_contra hle
      rw [hcont hle] at herr
      exact addExpiryOn_ne_future _ _ _ _ _ herr
    · intro hgt
      exact add_of_future_reject st hsent hgt
  · intro hle
    exact hcont (not_lt.mpr hle)

/-- C2 witness: at `now = 1000` with allowance 10, the declared send time
1011 = now + allowance + 1 is rejected as created in the future. -/
theorem C2_future_boundary_witness :
    Whisper.add p0 false 1000 envC2 initialWhisper =
      .error "message created in the future" :=
  (C2_future_boundary p0 false 1000 envC2 initialWhisper (by decide)).1.mpr
    (by decide)

/-- C3 counterexample: the marginally expired envelope `envC3`
(`expiry = 999 = now - 1`, within double allowance, at `now = 1000`) is
claimed to be silently dropped with success, but because its TTL 2000 exceeds
its expiry, its declared send time wraps and `add` instead fails with the
future-dating protocol violation. -/
theorem C3_staleness_counterexample :
    envC3.Expiry < 1000 ∧
    ¬ add32 envC3.Expiry (p0.SynchAllowance * 2) < 1000 ∧
    Whisper.add p0 false 1000 envC3 initialWhisper =
      .error "message created in the future" :=
  ⟨by decide, by decide, rfl⟩

/-- C3 (amended): Staleness boundary of `add`, for envelopes not already
rejected by the future-dating check: for every such envelope with
`expiry < now`, `add` fails with the protocol-violation error "very old
message" if and only if `expiry + 2*allowance < now` (`uint32` arithmetic);
otherwise it returns success with no pool mutation, so the envelope never
appears in a subsequent envelope listing. -/
theorem C3_staleness_boundary (p : Params) (tst : Bool) (now : Nat)
    (env : Envelope) (st : WState)
    (h1 : env.Expiry < now)
    (h2 : ¬(sub32 env.Expiry env.TTL > now ∧
            sub32 (sub32 env.Expiry env.TTL) p.SynchAllowance > now)) :
    (Whisper.add p tst now env st = .error "very old message" ↔
      add32 env.Expiry (p.SynchAllowance * 2) < now) ∧
    (¬ add32 env.Expiry (p.SynchAllowance * 2) < now →
      Whisper.add p tst now env st = .ok st) := by
  have hstage : Whisper.add p tst now env st =
      addExpiryOn p tst now (effectiveEnv now env) st := add_eq_addExpiryOn st h2
  have hexp : (effectiveEnv now env).Expiry < now := by
    rw [effectiveEnv_Expiry]; exact h1
  have hadd32 : add32 (effectiveEnv now env).Expiry (p.SynchAllowance * 2) =
      add32 env.Expiry (p.SynchAllowance * 2) := by
    rw [effectiveEnv_Expiry]
  constructor
  · constructor
    · intro herr
      by_contra hnlt
      rw [hstage] at herr
      unfold addExpiryOn at herr
      rw [if_pos hexp, if_neg (by rw [hadd32]; exact hnlt)] at herr
      cases herr
    · intro hlt
      rw [hstage]
      unfold addExpiryOn
      rw [if_pos hexp, if_pos (by rw [hadd32]; exact hlt)]
  · intro hnlt
    rw [hstage]
    unfold addExpiryOn
    rw [if_pos hexp, if_neg (by rw [hadd32]; exact hnlt)]

/-- C3 witness: the marginally expired envelope `envC3b`
(`expiry = 999 = now - 1`, sane TTL) is silently dropped with success and no
pool mutation at `now = 1000`. -/
theorem C3_staleness_boundary_witness :
    Whisper.add p0 false 1000 envC3b initialWhisper = .ok initialWhisper :=
  (C3_staleness_boundary p0 false 1000 envC3b initialWhisper (by decide)
    (by decide)).2 (by decide)

/-- C4: PoW admission gate: an otherwise admissible envelope whose
(possibly recomputed) PoW score is below the minimum threshold is, in
non-test mode, accepted with success and no pool mutation; consequently no
reachable non-test pool state contains an envelope scoring below the
threshold; and in test mode the same envelope is admitted (inserted and
dispatched) regardless of its score. -/
theorem C4_pow_gate (p : Params) (now : Nat) (env : Envelope) (st : WState)
    (hnf : ¬(sub32 env.Expiry env.TTL > now ∧
             sub32 (sub32 env.Expiry env.TTL) p.SynchAllowance > now))
    (hexp : ¬ env.Expiry < now)
    (hd : ¬ env.DataLen > p.MaxMessageLength)
    (hvl : ¬ env.VersionLen > 4)
    (hn : ¬ env.AESNonceLen > p.AESNonceMaxLength)
    (hsl : ¬ env.SaltLen > p.saltLength)
    (hlow : (effectiveEnv now env).PoW < p.MinimumPoW) :
    Whisper.add p false now env st = .ok st ∧
    (∀ st', Reachable p false st' →
      ∀ h e, st'.envelopes h = some e → p.MinimumPoW ≤ e.PoW) ∧
    (st.envelopes env.Hash = none →
      Whisper.add p true now env st =
        .ok (postEvent p (effectiveEnv now env)
          (st.insertEnvelope (effectiveEnv now env)))) := by
  have hexp' : ¬ (effectiveEnv now env).Expiry < now := by
    rw [effectiveEnv_Expiry]; exact hexp
  have hd' : ¬ (effectiveEnv now env).DataLen > p.MaxMessageLength := by
    rw [effectiveEnv_DataLen]; exact hd
  have hvl' : ¬ (effectiveEnv now env).VersionLen > 4 := by
    rw [effectiveEnv_VersionLen]; exact hvl
  have hn' : ¬ (effectiveEnv now env).AESNonceLen > p.AESNonceMaxLength := by
    rw [effectiveEnv_AESNonceLen]; exact hn
  have hsl' : ¬ (effectiveEnv now env).SaltLen > p.saltLength := by
    rw [effectiveEnv_SaltLen]; exact hsl
  refine ⟨?_, ?_, ?_⟩
  · rw [add_eq_addExpiryOn st hnf]
    unfold addExpiryOn
    rw [if_neg hexp', if_neg hd', if_neg hvl', if_neg hn', if_neg hsl',
      if_pos ⟨hlow, rfl⟩]
  · intro st' hr
    exact reachable_pow hr
  · intro hfresh
    rw [add_eq_addExpiryOn st hnf]
    refine addExpiryOn_insert hexp' hd' hvl' hn' hsl' ?_ ?_
    · rintro ⟨_, hc⟩
      cases hc
    · rw [effectiveEnv_Hash, hfresh]
      rfl

/-- C4 witness: the concrete envelope `envC4` with PoW score 0 below the
threshold 1 is silently dropped at `now = 20` in non-test mode. -/
theorem C4_pow_gate_witness :
    Whisper.add p0 false 20 envC4 initialWhisper = .ok initialWhisper :=
  (C4_pow_gate p0 20 envC4 initialWhisper (by decide) (by decide) (by decide)
    (by decide) (by decide) (by decide) (by decide)).1

/-- C10: TTL/expiry underflow: `sent` is the wrapping unsigned 32-bit
subtraction `expiry - ttl`, so for an envelope whose TTL exceeds its expiry
it equals `expiry + 2^32 - ttl`; whenever that wrapped value exceeds
`now + allowance`, `add` rejects the envelope with the "created in the
future" protocol violation rather than treating it as expired. -/
theorem C10_ttl_underflow (p : Params) (tst : Bool) (now : Nat)
    (env : Envelope) (st : WState)
    (hE : env.Expiry < env.TTL) (hT : env.TTL < pow32)
    (hgt : now + p.SynchAllowance < sub32 env.Expiry env.TTL) :
    sub32 env.Expiry env.TTL = env.Expiry + pow32 - env.TTL ∧
    Whisper.add p tst now env st = .error "message created in the future" := by
  have hwrap := sub32_eq_of_lt hE hT
  refine ⟨hwrap, ?_⟩
  have hsentlt : sub32 env.Expiry env.TTL < pow32 := by
    rw [hwrap]; omega
  have h1 : sub32 env.Expiry env.TTL > now :=
    lt_of_le_of_lt (Nat.le_add_right now p.SynchAllowance) hgt
  have hA : p.SynchAllowance ≤ sub32 env.Expiry env.TTL :=
    le_trans (Nat.le_add_left _ now) (le_of_lt hgt)
  have h2 : sub32 (sub32 env.Expiry env.TTL) p.SynchAllowance > now := by
    rw [sub32_eq_of_le hA hsentlt]
    omega
  exact add_of_future_reject st h1 h2

/-- C10 witness: `envC10` with expiry 100 and TTL 200 at `now = 1000`: the
wrapped send time 2^32 - 100 exceeds `now + allowance`, and `add` rejects it
as created in the future. -/
theorem C10_ttl_underflow_witness :
    Whisper.add p0 false 1000 envC10 initialWhisper =
      .error "message created in the future" :=
  (C10_ttl_underflow p0 false 1000 envC10 initialWhisper (by decide)
    (by decide) (by decide)).2

/-- C5: Sweep correctness: one `expire` at sweep time `now` removes from both
the envelope map and the message map every hash listed in a bucket whose
timestamp is at or before `now` and empties that bucket while keeping it in
the index, and leaves every bucket with a timestamp strictly greater than
`now` — and all envelopes and messages it references — unchanged (the latter
under the reachable-state fact that no future bucket shares a hash with an
expired one). -/
theorem C5_sweep (st : WState) (now : Nat)
    (hdisj : ∀ h, h ∈ expiredHashes st.expirations now →
      ∀ t b, (t, b) ∈ st.expirations → now < t → h ∉ b) :
    (∀ t b, (t, b) ∈ st.expirations → t ≤ now →
      (t, ([] : List Nat)) ∈ (expire now st).expirations ∧
      ∀ h, h ∈ b → (expire now st).envelopes h = none ∧
        (expire now st).messages h = none) ∧
    (∀ t b, (t, b) ∈ st.expirations → now < t →
      (t, b) ∈ (expire now st).expirations ∧
      ∀ h, h ∈ b → (expire now st).envelopes h = st.envelopes h ∧
        (expire now st).messages h = st.messages h) := by
  constructor
  · intro t b htb hle
    constructor
    · unfold expire
      have heq : (fun tb : Nat × List Nat =>
          if tb.1 ≤ now then (tb.1, ([] : List Nat)) else tb) (t, b) = (t, []) := by
        simp [hle]
      exact heq ▸ List.mem_map_of_mem _ htb
    · intro h hb
      have hm : h ∈ expiredHashes st.expirations now :=
        mem_expiredHashes.mpr ⟨t, b, htb, hle, hb⟩
      constructor
      · show (if h ∈ expiredHashes st.expirations now then none
          else st.envelopes h) = none
        rw [if_pos hm]
      · show (if h ∈ expiredHashes st.expirations now then none
          else st.messages h) = none
        rw [if_pos hm]
  · intro t b htb hgt
    constructor
    · unfold expire
      have heq : (fun tb : Nat × List Nat =>
          if tb.1 ≤ now then (tb.1, ([] : List Nat)) else tb) (t, b) = (t, b) := by
        simp [Nat.not_le.mpr hgt]
      exact heq ▸ List.mem_map_of_mem _ htb
    · intro h hb
      have hm : h ∉ expiredHashes st.expirations now := fun hmem =>
        hdisj h hmem t b htb hgt hb
      constructor
      · show (if h ∈ expiredHashes st.expirations now then none
          else st.envelopes h) = st.envelopes h
        rw [if_neg hm]
      · show (if h ∈ expiredHashes st.expirations now then none
          else st.messages h) = st.messages h
        rw [if_neg hm]

/-- C5 witness: sweeping the concrete two-bucket pool `c5st` at time 7
removes envelope and message of hash 1 (bucket at 5), keeps its emptied
bucket, and leaves hash 2 (bucket at 10) untouched. -/
theorem C5_sweep_witness :
    ((5, ([] : List Nat)) ∈ (expire 7 c5st).expirations ∧
      (expire 7 c5st).envelopes 1 = none ∧ (expire 7 c5st).messages 1 = none) ∧
    ((10, [2]) ∈ (expire 7 c5st).expirations ∧
      (expire 7 c5st).envelopes 2 = c5st.envelopes 2 ∧
      (expire 7 c5st).messages 2 = c5st.messages 2) := by
  have hdisj : ∀ h, h ∈ expiredHashes c5st.expirations 7 →
      ∀ t b, (t, b) ∈ c5st.expirations → 7 < t → h ∉ b := by
    intro h hm t b htb hgt hb
    have hm' : h ∈ [1] := by
      have he : expiredHashes c5st.expirations 7 = [1] := rfl
      rw [he] at hm
      exact hm
    have hh1 : h = 1 := by simpa using hm'
    have htb' : c5st.expirations = [(5, [1]), (10, [2])] := rfl
    rw [htb'] at htb
    simp only [List.mem_cons, List.mem_singleton] at htb
    rcases htb with heq | heq | heq
    · have : t = 5 := by cases heq; rfl
      omega
    · have hb2 : b = [2] := by cases heq; rfl
      rw [hb2, hh1] at hb
      simp at hb
    · cases heq
  have h5 := C5_sweep c5st 7 hdisj
  have ha := (h5.1 5 [1] (by decide) (by decide))
  have hb := (h5.2 10 [2] (by decide) (by decide))
  exact ⟨⟨ha.1, (ha.2 1 (by decide)).1, (ha.2 1 (by decide)).2⟩,
    ⟨hb.1, (hb.2 2 (by decide)).1, (hb.2 2 (by decide)).2⟩⟩

/-- C6: Expiration-index invariant: in every state reachable by `add`,
`expire` and `addDecryptedMessage` from the fresh node, every hash in the
envelope map appears in exactly one expiration bucket (one bucket holds it,
any bucket holding it is keyed by the envelope's expiry, and that key has a
unique bucket), and that bucket's timestamp equals the envelope's expiry. -/
theorem C6_expiration_index {p : Params} {tst : Bool} {st : WState}
    (hr : Reachable p tst st) (h : Nat) (env : Envelope)
    (henv : st.envelopes h = some env) :
    (∃ b, (env.Expiry, b) ∈ st.expirations ∧ h ∈ b) ∧
    (∀ t b, (t, b) ∈ st.expirations → h ∈ b → t = env.Expiry) ∧
    (∀ b b', (env.Expiry, b) ∈ st.expirations →
      (env.Expiry, b') ∈ st.expirations → b = b') := by
  obtain ⟨hk, hfwd, hbwd⟩ := reachable_poolInv hr
  refine ⟨hfwd h env henv, ?_, ?_⟩
  · intro t b htb hhb
    rcases hbwd t b h htb hhb with ⟨env', henv', hexp'⟩
    have : env' = env := Option.some.inj (henv'.symm.trans henv)
    rw [← hexp', this]
  · intro b b' hb hb'
    exact keys_unique hk hb hb'

/-- C6 witness: after admitting `env0` (expiry 5, hash 77) into the fresh
node, hash 77 sits in the bucket keyed 5. -/
theorem C6_expiration_index_witness :
    ∃ b, (env0.Expiry, b) ∈ st1.expirations ∧ (77 : Nat) ∈ b :=
  (C6_expiration_index
    (Reachable.addStep 0 env0 Reachable.init
      (show Whisper.add p0 false 0 env0 initialWhisper = .ok st1 from rfl))
    77 env0 rfl).1

/-- C7 counterexample to the claim as stated: admit `env0` (expiry 5,
hash 77), sweep at 5 (the envelope is removed), then let the decryption
callback fire late and store its message; even after a further sweep at 6 —
so sweeps at and after the envelope's expiry have run — the message keyed by
hash 77 is still in the message map. -/
theorem C7_message_lifecycle_counterexample :
    Whisper.add p0 false 0 env0 initialWhisper = .ok st1 ∧
    (expire 5 st1).envelopes 77 = none ∧
    (expire 6 (addDecryptedMessage ⟨77⟩ (expire 5 st1))).messages 77 =
      some ⟨77⟩ :=
  ⟨rfl, rfl, rfl⟩

/-- C7 (amended): ReceivedMessage lifecycle: in every reachable state, as
long as the originating envelope is still pooled, a sweep at or after its
expiry destroys every message keyed by its hash together with the envelope
itself; a decryption callback that fires only after its envelope was already
swept is outside this guarantee (its orphan message is never removed, as the
counterexample shows). -/
theorem C7_message_lifecycle {p : Params} {tst : Bool} {st : WState}
    (hr : Reachable p tst st) (h : Nat) (env : Envelope) (now : Nat)
    (henv : st.envelopes h = some env) (hle : env.Expiry ≤ now) :
    (expire now st).messages h = none ∧ (expire now st).envelopes h = none := by
  obtain ⟨hk, hfwd, hbwd⟩ := reachable_poolInv hr
  rcases hfwd h env henv with ⟨b, hb, hhb⟩
  have hm : h ∈ expiredHashes st.expirations now :=
    mem_expiredHashes.mpr ⟨env.Expiry, b, hb, hle, hhb⟩
  constructor
  · show (if h ∈ expiredHashes st.expirations now then none
      else st.messages h) = none
    rw [if_pos hm]
  · show (if h ∈ expiredHashes st.expirations now then none
      else st.envelopes h) = none
    rw [if_pos hm]

/-- C7 witness: with `env0` admitted and its decrypted message stored before
any sweep, the sweep at time 5 = expiry removes the message (and the
envelope). -/
theorem C7_message_lifecycle_witness :
    (expire 5 (addDecryptedMessage ⟨77⟩ st1)).messages 77 = none ∧
    (expire 5 (addDecryptedMessage ⟨77⟩ st1)).envelopes 77 = none :=
  C7_message_lifecycle
    (Reachable.msgStep ⟨77⟩
      (Reachable.addStep 0 env0 Reachable.init
        (show Whisper.add p0 false 0 env0 initialWhisper = .ok st1 from rfl)))
    77 env0 5 rfl (by decide)

/-- C8: Symmetric-key name uniqueness: with `name` already present in the
key store, `AddSymKey` and `GenerateSymKey` (the latter with valid random
draws and a valid derivation) fail with the duplicate-name error and leave
the store unchanged (no overwrite); and after `DeleteSymKey name` (resp.
`DeleteIdentity key`), `HasSymKey name` (resp. `HasIdentity key`) is
false. -/
theorem C8_key_uniqueness (kdf : List Nat → List Nat) (ver aesKeyLength : Nat)
    (dotk : List Nat → List Nat → Nat → Except String (List Nat))
    (w : KeyState) (name pk : String) (key buf buf2 k0 derived : List Nat)
    (hname : w.symKeys name = some k0)
    (hb : validateSymmetricKey buf = true)
    (hb2 : validateSymmetricKey buf2 = true)
    (hdo : dotk ((List.zipWith Nat.xor buf buf2).take aesKeyLength)
        ((List.zipWith Nat.xor buf buf2).drop aesKeyLength) ver = .ok derived)
    (hdv : validateSymmetricKey derived = true) :
    AddSymKey kdf ver w name key =
      (some ("Key with name [" ++ name ++ "] already exists"), w) ∧
    GenerateSymKey aesKeyLength dotk ver w name buf buf2 =
      (some ("Key with name [" ++ name ++ "] already exists"), w) ∧
    HasSymKey (DeleteSymKey w name) name = false ∧
    HasIdentity (DeleteIdentity w pk) pk = false := by
  have hhas : HasSymKey w name = true := by
    unfold HasSymKey
    rw [hname]
    rfl
  refine ⟨?_, ?_, ?_, ?_⟩
  · unfold AddSymKey
    rw [if_pos hhas]
  · unfold GenerateSymKey
    rw [if_neg (by rw [hb]; simp), if_neg (by rw [hb2]; simp), hdo]
    simp only
    rw [if_neg (by rw [hdv]; simp), if_pos (by rw [hname]; rfl)]
  · unfold HasSymKey DeleteSymKey updateS
    simp
  · unfold HasIdentity DeleteIdentity updateS
    simp

/-- C8 witness: the concrete store `ks0` holding key `[1]` under name `a`
and an identity under `pk`. -/
theorem C8_key_uniqueness_witness :
    AddSymKey (fun k => k) 0 ks0 "a" [3] =
      (some "Key with name [a] already exists", ks0) ∧
    GenerateSymKey 1 (fun _ _ _ => .ok [1]) 0 ks0 "a" [1, 1] [2, 2] =
      (some "Key with name [a] already exists", ks0) ∧
    HasSymKey (DeleteSymKey ks0 "a") "a" = false ∧
    HasIdentity (DeleteIdentity ks0 "pk") "pk" = false :=
  C8_key_uniqueness (fun k => k) 0 1 (fun _ _ _ => .ok [1]) ks0 "a" "pk"
    [3] [1, 1] [2, 2] [1] [1] rfl (by decide) (by decide) rfl (by decide)

/-- C9: Identity generation: `NewIdentity` uses the first generated key when
it validates (no retry), uses the single retried key when the first attempt
errored or failed validation, aborts with a fatal key-generation error when
the retry is still invalid, and never returns an invalid key. -/
theorem C9_new_identity (enc : PrivateKey → String)
    (g1 g2 : Except String PrivateKey) (w : KeyState) :
    (∀ k, g1 = .ok k → validatePrivateKey k = true →
      NewIdentity enc g1 g2 w =
        .ok (k, { w with privateKeys := updateS w.privateKeys (enc k) (some k) })) ∧
    (∀ k2, invalidAttempt g1 → g2 = .ok k2 → validatePrivateKey k2 = true →
      NewIdentity enc g1 g2 w =
        .ok (k2, { w with privateKeys := updateS w.privateKeys (enc k2) (some k2) })) ∧
    (invalidAttempt g1 → invalidAttempt g2 →
      ∃ e, NewIdentity enc g1 g2 w = .error e) ∧
    (∀ k w', NewIdentity enc g1 g2 w = .ok (k, w') →
      validatePrivateKey k = true) := by
  refine ⟨?_, ?_, ?_, ?_⟩
  · intro k hg1 hval
    subst hg1
    simp [NewIdentity, hval]
  · intro k2 hinv1 hg2 hval2
    subst hg2
    cases g1 with
    | error e => simp [NewIdentity, hval2]
    | ok k =>
      have hk : validatePrivateKey k = false := hinv1 k rfl
      simp [NewIdentity, hk, hval2]
  · intro hinv1 hinv2
    cases g2 with
    | error e2 =>
      cases g1 with
      | error e => exact ⟨e2, by simp [NewIdentity]⟩
      | ok k =>
        have hk : validatePrivateKey k = false := hinv1 k rfl
        exact ⟨e2, by simp [NewIdentity, hk]⟩
    | ok k2 =>
      have hk2 : validatePrivateKey k2 = false := hinv2 k2 rfl
      cases g1 with
      | error e =>
        exact ⟨"Failed to generate valid key", by simp [NewIdentity, hk2]⟩
      | ok k =>
        have hk : validatePrivateKey k = false := hinv1 k rfl
        exact ⟨"Failed to generate valid key", by simp [NewIdentity, hk, hk2]⟩
  · intro k w' hres
    unfold NewIdentity at hres
    repeat' split at hres
    all_goals try cases hres
    all_goals assumption

/-- C9 witness: a first attempt with zero private scalar is rejected, the
retried valid key is returned and stored. -/
theorem C9_new_identity_witness :
    NewIdentity (fun _ => "pk") (.ok ⟨0, 1, 1⟩) (.ok ⟨1, 1, 1⟩) initialKeys =
      .ok (⟨1, 1, 1⟩, { initialKeys with
        privateKeys := updateS initialKeys.privateKeys "pk" (some ⟨1, 1, 1⟩) }) :=
  (C9_new_identity (fun _ => "pk") (.ok ⟨0, 1, 1⟩) (.ok ⟨1, 1, 1⟩)
    initialKeys).2.1 ⟨1, 1, 1⟩
    (by intro k hk; cases hk; decide) rfl (by decide)

end Whisperv5
